import Mathlib

/-!
Shallow embedding of the cell-normalization pipeline of
src/converter_xlsx_to_csv.py: the two pure functions to_plain_string
(cell value to canonical string) and trim_text (text sanitizer), with the
configuration constants DATE_FORMAT_DATETIME / DATE_FORMAT_DATE and the
zero-width / NBSP character data they use.

Modelling conventions:
- A Python float value is modelled by its shortest round-tripping decimal
  representation, the information content of repr(v) / str(v): a sign, a
  coefficient and a base-10 exponent (or NaN / signed infinity).  The
  source expression str(v) is embedded as pyFloatRepr, which rebuilds the
  textual form CPython prints (fixed-point when the decimal point lands
  within positions -3..16, exponent notation otherwise).
- Decimal(str(v)) is embedded as a parser decOfString over the decimal
  string grammar (sign, digits, optional point, optional exponent,
  nan / inf forms); the except (InvalidOperation, ValueError) handler of
  the source is the parser's none branch.
- datetime.strftime is embedded as an interpreter over the format string,
  covering the %d %m %Y %H %M %S directives the two configuration
  constants use, each zero-padded as CPython prints them for workbook
  dates (all of which have four-digit years).
- str.strip() strips the characters for which Python's str.isspace() is
  true; pyIsSpace lists that whitespace set.
-/

/-! ## Decimal digits -/

def digitChar (n : Nat) : Char :=
  if n = 0 then '0' else if n = 1 then '1' else if n = 2 then '2' else if n = 3 then '3'
  else if n = 4 then '4' else if n = 5 then '5' else if n = 6 then '6' else if n = 7 then '7'
  else if n = 8 then '8' else '9'

def isDigitChar (c : Char) : Bool :=
  decide (48 ≤ c.toNat ∧ c.toNat ≤ 57)

def digitVal (c : Char) : Nat := c.toNat - 48

/-- Digits of the value `l` denotes, accumulated most-significant-first. -/
def digitsVal (l : List Char) : Nat :=
  l.foldl (fun a c => 10 * a + digitVal c) 0

/-- Decimal digits of `n`, most significant first; the first argument is
recursion fuel (any fuel at least `n` gives the digits of `n`). -/
def natDigitsAux : Nat → Nat → List Char
  | 0, _ => []
  | fuel + 1, n => if n = 0 then [] else natDigitsAux fuel (n / 10) ++ [digitChar (n % 10)]

def natDigits (n : Nat) : List Char :=
  if n = 0 then ['0'] else natDigitsAux n n

/-! ## The decimal value model

A value of `PyDec` is the information content of a `decimal.Decimal`
built from `str(v)` for a numeric `v`: sign, coefficient and exponent,
or one of the non-finite forms. -/

inductive PyDec where
  | num (sign : Bool) (coeff : Nat) (exp : Int)
  | nan
  | inf (sign : Bool)
deriving DecidableEq, Repr

/-- A Python float, modelled by its shortest round-tripping decimal
representation: the digits and exponent that repr(v) prints. -/
inductive PyFloat where
  | finite (sign : Bool) (coeff : Nat) (exp : Int)
  | nan
  | inf (sign : Bool)
deriving DecidableEq, Repr

/-! ## Parsing a decimal string (the Decimal constructor) -/

/-- Strip an optional leading sign, returning (isNegative, rest). -/
def splitSign (l : List Char) : Bool × List Char :=
  match l with
  | [] => (false, [])
  | c :: t => if c = '-' then (true, t) else if c = '+' then (false, t) else (false, l)

/-- Parse the optional exponent part that may follow the digits of a
decimal string: either the end of input, or an `e`/`E`, an optional sign
and a nonempty digit run.  `coeff` and `fracExp` are the coefficient and
exponent accumulated from the digits before this point. -/
def parseExpTail (coeff : Nat) (fracExp : Int) (l : List Char) : Option (Nat × Int) :=
  match l with
  | [] => some (coeff, fracExp)
  | c :: r =>
    if c = 'e' ∨ c = 'E' then
      let sr := splitSign r
      let ds := sr.2.takeWhile isDigitChar
      if ds = [] then none
      else if sr.2.dropWhile isDigitChar ≠ [] then none
      else some (coeff, fracExp + (if sr.1 then -(digitsVal ds : Int) else (digitsVal ds : Int)))
    else none

/-- Parse the unsigned numeric body of a decimal string: a digit run,
optionally a point and a second digit run (at least one of the two runs
nonempty), optionally an exponent part. -/
def parseNumeric (l : List Char) : Option (Nat × Int) :=
  let ds1 := l.takeWhile isDigitChar
  match l.dropWhile isDigitChar with
  | [] => if ds1 = [] then none else parseExpTail (digitsVal ds1) 0 []
  | c :: r2 =>
    if c = '.' then
      let ds2 := r2.takeWhile isDigitChar
      if ds1 = [] ∧ ds2 = [] then none
      else parseExpTail (digitsVal (ds1 ++ ds2)) (-(ds2.length : Int)) (r2.dropWhile isDigitChar)
    else if ds1 = [] then none else parseExpTail (digitsVal ds1) 0 (c :: r2)

def lowerChar (c : Char) : Char :=
  if 65 ≤ c.toNat ∧ c.toNat ≤ 90 then Char.ofNat (c.toNat + 32) else c

/-- The Decimal string constructor: an optional sign, then either a
(case-insensitive) nan / inf / infinity form or the numeric grammar.
Returns none exactly where the source would raise InvalidOperation. -/
def decOfChars (l : List Char) : Option PyDec :=
  let sl := splitSign l
  let low := sl.2.map lowerChar
  if low = "nan".data then some PyDec.nan
  else if low = "inf".data ∨ low = "infinity".data then some (PyDec.inf sl.1)
  else (parseNumeric sl.2).map (fun p => PyDec.num sl.1 p.1 p.2)

def decOfString (s : String) : Option PyDec := decOfChars s.data

/-! ## Fixed-point rendering (format(d, "f")) -/

/-- Fixed-point digit sequence of coeff * 10 ^ exp: for a nonnegative
exponent the digits followed by that many zeros, otherwise the digits
split by a point, padded with leading zeros so an integer digit is
always present. -/
def fixedChars (coeff : Nat) (exp : Int) : List Char :=
  let ds := natDigits coeff
  if 0 ≤ exp then ds ++ List.replicate exp.toNat '0'
  else
    let k := (-exp).toNat
    let ds' := List.replicate (k + 1 - ds.length) '0' ++ ds
    ds'.take (ds'.length - k) ++ '.' :: ds'.drop (ds'.length - k)

/-- format(d, "f"): fixed-point rendering of a Decimal; the non-finite
values print as NaN / Infinity with no exponent character. -/
def formatF : PyDec → String
  | PyDec.num sign c e => String.mk ((if sign then ['-'] else []) ++ fixedChars c e)
  | PyDec.nan => "NaN"
  | PyDec.inf sign => if sign then "-Infinity" else "Infinity"

/-- s.rstrip(c) for a one-character strip set. -/
def rstripL (l : List Char) (c : Char) : List Char :=
  (l.reverse.dropWhile (fun x => x = c)).reverse

def rstripChar (s : String) (c : Char) : String :=
  String.mk (rstripL s.data c)

/-- The body of the numeric branch after the Decimal conversion:
render fixed-point, then if a point is present strip trailing zeros and
then a trailing point. -/
def stripNumFixed (d : PyDec) : String :=
  let fixed := formatF d
  if fixed.data.any (fun c => c == '.') then rstripChar (rstripChar fixed '0') '.' else fixed

/-- The numeric branch of to_plain_string, lines 88-95 of the source:
try Decimal(s) and render it; on a conversion failure fall back to the
original textual form s. -/
def numericPlain (s : String) : String :=
  match decOfString s with
  | some d => stripNumFixed d
  | none => s

/-! ## str(v) for numeric values -/

def pyIntRepr (n : Int) : String :=
  String.mk ((if n < 0 then ['-'] else []) ++ natDigits n.natAbs)

/-- Exponent digits of repr's scientific form, zero-padded to width two. -/
def padExp2 (m : Nat) : List Char :=
  let ds := natDigits m
  if ds.length < 2 then '0' :: ds else ds

/-- Scientific body of repr: the digits with a point after the first
(omitted when there is a single digit), then e, an explicit sign and the
adjusted exponent `a`. -/
def sciChars (coeff : Nat) (a : Int) : List Char :=
  let ds := natDigits coeff
  (if ds.length ≤ 1 then ds else ds.take 1 ++ '.' :: ds.drop 1) ++
    'e' :: (if a < 0 then '-' else '+') :: padExp2 a.natAbs

/-- str(v) for a float: CPython prints the shortest round-tripping
decimal fixed-point when the decimal point position lands in -3..16 and
in scientific notation otherwise; nan and inf print as such. -/
def pyFloatRepr : PyFloat → String
  | PyFloat.nan => "nan"
  | PyFloat.inf sign => if sign then "-inf" else "inf"
  | PyFloat.finite sign c e =>
    let dp : Int := e + (natDigits c).length
    let body := if -3 ≤ dp ∧ dp ≤ 16 then fixedChars c e else sciChars c (dp - 1)
    String.mk ((if sign then ['-'] else []) ++ body)

/-! ## Dates and strftime -/

structure PyDate where
  year : Nat
  month : Nat
  day : Nat
deriving DecidableEq, Repr

structure PyDateTime where
  year : Nat
  month : Nat
  day : Nat
  hour : Nat
  minute : Nat
  second : Nat
deriving DecidableEq, Repr

def pad2 (n : Nat) : List Char :=
  if n < 10 then '0' :: natDigits n else natDigits n

def pad4 (n : Nat) : List Char :=
  if n < 10 then '0' :: '0' :: '0' :: natDigits n
  else if n < 100 then '0' :: '0' :: natDigits n
  else if n < 1000 then '0' :: natDigits n
  else natDigits n

/-- One strftime % directive, for the directives the configuration
constants use; an unknown directive is kept literally. -/
def fmtDirective (y mo d h mi s : Nat) (c : Char) : List Char :=
  if c = 'd' then pad2 d
  else if c = 'm' then pad2 mo
  else if c = 'Y' then pad4 y
  else if c = 'H' then pad2 h
  else if c = 'M' then pad2 mi
  else if c = 'S' then pad2 s
  else ['%', c]

def strftimeChars (y mo d h mi s : Nat) : List Char → List Char
  | [] => []
  | '%' :: c :: r => fmtDirective y mo d h mi s c ++ strftimeChars y mo d h mi s r
  | c :: r => c :: strftimeChars y mo d h mi s r

def pyStrftime (fmt : String) (y mo d h mi s : Nat) : String :=
  String.mk (strftimeChars y mo d h mi s fmt.data)

/-- Configuration constant DATE_FORMAT_DATETIME of the source. -/
def DATE_FORMAT_DATETIME : String := "%d/%m/%Y, %H:%M:%S"

/-- Configuration constant DATE_FORMAT_DATE of the source. -/
def DATE_FORMAT_DATE : String := "%d/%m/%Y"

/-- str(v) for a date: the ISO form YYYY-MM-DD. -/
def isoDate (d : PyDate) : String :=
  String.mk (pad4 d.year ++ '-' :: pad2 d.month ++ '-' :: pad2 d.day)

/-- str(v) for a datetime with zero microseconds:
YYYY-MM-DD HH:MM:SS. -/
def isoDateTime (t : PyDateTime) : String :=
  String.mk (pad4 t.year ++ '-' :: pad2 t.month ++ '-' :: pad2 t.day ++ ' ' ::
    pad2 t.hour ++ ':' :: pad2 t.minute ++ ':' :: pad2 t.second)

/-! ## The cell value union and to_plain_string -/

/-- The tagged union a workbook cell value ranges over (spec section 3):
absent, text, boolean, integer, floating-point, date, date-time; `other`
stands for any further Python object, carried as its str() rendering. -/
inductive Value where
  | none
  | str (s : String)
  | bool (b : Bool)
  | int (n : Int)
  | float (f : PyFloat)
  | date (d : PyDate)
  | datetime (t : PyDateTime)
  | other (s : String)
deriving DecidableEq, Repr

/-- str(v), the default textual conversion of each value. -/
def pyStrValue : Value → String
  | Value.none => "None"
  | Value.str s => s
  | Value.bool b => if b then "True" else "False"
  | Value.int n => pyIntRepr n
  | Value.float f => pyFloatRepr f
  | Value.date d => isoDate d
  | Value.datetime t => isoDateTime t
  | Value.other s => s

/-- A cell as to_plain_string consumes it: the raw value and the
is_date format flag supplied by the workbook reader. -/
structure Cell where
  value : Value
  is_date : Bool
deriving DecidableEq, Repr

/-- to_plain_string (source lines 60-98).  The isinstance chain of the
source is a dispatch on the disjoint tags of the value union, in source
order: None first; then the date check, which fires only when the
is_date flag is set and the value is a datetime or date (a datetime or
date with the flag unset falls through the str, bool and numeric
isinstance checks to the final str(v) fallback, inlined here); then
text, booleans, numbers, and the str(v) fallback. -/
def to_plain_string (cell : Cell) : String :=
  match cell.value with
  | Value.none => ""
  | Value.datetime t =>
    if cell.is_date then
      pyStrftime DATE_FORMAT_DATETIME t.year t.month t.day t.hour t.minute t.second
    else isoDateTime t
  | Value.date d =>
    if cell.is_date then pyStrftime DATE_FORMAT_DATE d.year d.month d.day 0 0 0
    else isoDate d
  | Value.str s => s
  | Value.bool b => if b then "TRUE" else "FALSE"
  | Value.int n => numericPlain (pyIntRepr n)
  | Value.float f => numericPlain (pyFloatRepr f)
  | Value.other s => s

/-! ## trim_text -/

/-- NBSP constant of the source (non-breaking space U+00A0). -/
def NBSP : Char := '\u00A0'

/-- Membership in the zero-width character class of _ZERO_WIDTH_RE:
U+200B, U+200C, U+200D, U+FEFF. -/
def isZeroWidth (c : Char) : Bool :=
  c == '\u200B' || c == '\u200C' || c == '\u200D' || c == '\uFEFF'

/-- The characters Python's str.isspace() accepts, the strip set of
str.strip(). -/
def pyIsSpace (c : Char) : Bool :=
  decide (c.toNat = 32 ∨ (9 ≤ c.toNat ∧ c.toNat ≤ 13) ∨ (28 ≤ c.toNat ∧ c.toNat ≤ 31)
    ∨ c.toNat = 133 ∨ c.toNat = 160 ∨ c.toNat = 5760 ∨ (8192 ≤ c.toNat ∧ c.toNat ≤ 8202)
    ∨ c.toNat = 8232 ∨ c.toNat = 8233 ∨ c.toNat = 8239 ∨ c.toNat = 8287 ∨ c.toNat = 12288)

/-- s.strip(): drop leading and trailing characters satisfying p. -/
def pyStripL (p : Char → Bool) (l : List Char) : List Char :=
  ((l.dropWhile p).reverse.dropWhile p).reverse

/-- trim_text (source lines 101-115): the empty guard, NBSP replaced by
an ordinary space, the zero-width class deleted, then strip.  The
isinstance(s, str) coercion of the source is a no-op here, the argument
being a string by type. -/
def trim_text (s : String) : String :=
  if s = "" then ""
  else
    String.mk (pyStripL pyIsSpace
      (((s.data.map (fun c => if c = NBSP then ' ' else c)).filter (fun c => !isZeroWidth c))))

/-! ## Spec-side definitions, for the refinement claims

These follow the wording of spec.md rather than the source, and are
compared with the source embeddings in the theorems below. -/

/-- Spec section 4.1 step 5: reinterpret the shortest round-tripping
decimal representation (sign, coeff, exp) as an exact base-10 decimal,
render it fixed-point, strip trailing fractional zeros and a trailing
point if the fraction became empty. -/
def normalizeNum_spec (sign : Bool) (coeff : Nat) (exp : Int) : String :=
  stripNumFixed (PyDec.num sign coeff exp)

/-- Spec section 4.2: replace every NBSP with an ordinary space, delete
every zero-width character, strip surrounding whitespace. -/
def sanitize_spec (s : String) : String :=
  String.mk (pyStripL pyIsSpace
    (((s.data.map (fun c => if c = NBSP then ' ' else c)).filter (fun c => !isZeroWidth c))))

/-- Spec section 4.1 step 2: the DD/MM/YYYY, HH:MM:SS date-time pattern,
24-hour, zero-padded. -/
def dateTimeFormat_spec (t : PyDateTime) : String :=
  String.mk (pad2 t.day ++ '/' :: pad2 t.month ++ '/' :: pad4 t.year ++ ',' :: ' ' ::
    pad2 t.hour ++ ':' :: pad2 t.minute ++ ':' :: pad2 t.second)

/-- Spec section 4.1 step 2: the DD/MM/YYYY date-only pattern. -/
def dateFormat_spec (d : PyDate) : String :=
  String.mk (pad2 d.day ++ '/' :: pad2 d.month ++ '/' :: pad4 d.year)

/-- Does the string contain an exponent-notation character e or E
(spec section 8, first property)? -/
def hasExpChar (s : String) : Bool :=
  s.data.any (fun c => c == 'e' || c == 'E')

/-! ## Lemmas about digits -/

lemma isDigitChar_digitChar (n : Nat) : isDigitChar (digitChar n) = true := by
  unfold digitChar
  split_ifs <;> decide

lemma digitVal_digitChar {n : Nat} (h : n < 10) : digitVal (digitChar n) = n := by
  unfold digitChar
  split_ifs with h0 h1 h2 h3 h4 h5 h6 h7 h8
  · subst h0; decide
  · subst h1; decide
  · subst h2; decide
  · subst h3; decide
  · subst h4; decide
  · subst h5; decide
  · subst h6; decide
  · subst h7; decide
  · subst h8; decide
  · have h9 : n = 9 := by omega
    subst h9; decide

lemma natDigitsAux_congr : ∀ (f g n : Nat), n ≤ f → n ≤ g → natDigitsAux f n = natDigitsAux g n := by
  intro f
  induction f with
  | zero =>
    intro g n hf _
    have hn : n = 0 := Nat.le_zero.mp hf
    subst hn
    cases g <;> simp [natDigitsAux]
  | succ f ih =>
    intro g n hf hg
    by_cases hn : n = 0
    · subst hn
      cases g <;> simp [natDigitsAux]
    · cases g with
      | zero => omega
      | succ g =>
        have hd : n / 10 < n := Nat.div_lt_self (Nat.pos_of_ne_zero hn) (by norm_num)
        simp only [natDigitsAux, if_neg hn]
        rw [ih g (n / 10) (by omega) (by omega)]

lemma natDigitsAux_step {f n : Nat} (hn : n ≠ 0) (hf : n ≤ f) :
    natDigitsAux f n = natDigitsAux f (n / 10) ++ [digitChar (n % 10)] := by
  have hd : n / 10 < n := Nat.div_lt_self (Nat.pos_of_ne_zero hn) (by norm_num)
  cases f with
  | zero => omega
  | succ f =>
    have h1 : natDigitsAux (f + 1) n = natDigitsAux f (n / 10) ++ [digitChar (n % 10)] := by
      conv_lhs => simp only [natDigitsAux]
      rw [if_neg hn]
    rw [h1]
    congr 1
    exact natDigitsAux_congr f (f + 1) (n / 10) (by omega) (by omega)

lemma natDigitsAux_all_digits : ∀ (f n : Nat), ∀ c ∈ natDigitsAux f n, isDigitChar c = true := by
  intro f
  induction f with
  | zero => intro n c hc; simp [natDigitsAux] at hc
  | succ f ih =>
    intro n c hc
    by_cases hn : n = 0
    · subst hn; simp [natDigitsAux] at hc
    · simp only [natDigitsAux, if_neg hn, List.mem_append, List.mem_singleton] at hc
      rcases hc with hc | hc
      · exact ih _ c hc
      · subst hc; exact isDigitChar_digitChar _

lemma natDigits_all_digits (n : Nat) : ∀ c ∈ natDigits n, isDigitChar c = true := by
  unfold natDigits
  split_ifs with h
  · intro c hc
    simp only [List.mem_singleton] at hc
    subst hc; decide
  · exact natDigitsAux_all_digits n n

lemma natDigits_ne_nil (n : Nat) : natDigits n ≠ [] := by
  unfold natDigits
  split_ifs with h
  · simp
  · cases n with
    | zero => exact absurd rfl h
    | succ m =>
      simp only [natDigitsAux, if_neg h]
      simp

lemma digitsVal_foldl_acc (l : List Char) :
    ∀ a : Nat, l.foldl (fun x c => 10 * x + digitVal c) a = a * 10 ^ l.length + digitsVal l := by
  induction l with
  | nil => intro a; simp [digitsVal]
  | cons c t ih =>
    intro a
    have hv : digitsVal (c :: t) = t.foldl (fun x c => 10 * x + digitVal c) (10 * 0 + digitVal c) := by
      simp [digitsVal]
    simp only [List.foldl_cons, List.length_cons, hv]
    rw [ih (10 * a + digitVal c), ih (10 * 0 + digitVal c)]
    ring

lemma digitsVal_append (l m : List Char) :
    digitsVal (l ++ m) = digitsVal l * 10 ^ m.length + digitsVal m := by
  have h : digitsVal (l ++ m) = m.foldl (fun x c => 10 * x + digitVal c) (digitsVal l) := by
    simp [digitsVal, List.foldl_append]
  rw [h, digitsVal_foldl_acc]

lemma digitsVal_zero_cons (l : List Char) : digitsVal ('0' :: l) = digitsVal l := by
  simp only [digitsVal, List.foldl_cons]
  have h : (10 * 0 + digitVal '0') = 0 := by decide
  rw [h]

lemma digitsVal_replicate_zero_append (k : Nat) (l : List Char) :
    digitsVal (List.replicate k '0' ++ l) = digitsVal l := by
  induction k with
  | zero => simp
  | succ k ih => rw [List.replicate_succ, List.cons_append, digitsVal_zero_cons, ih]

lemma digitsVal_singleton (c : Char) : digitsVal [c] = digitVal c := by
  simp [digitsVal]

lemma digitsVal_natDigitsAux : ∀ f n, n ≤ f → digitsVal (natDigitsAux f n) = n := by
  intro f
  induction f with
  | zero =>
    intro n h
    have hn : n = 0 := by omega
    subst hn; simp [natDigitsAux, digitsVal]
  | succ f ih =>
    intro n h
    by_cases hn : n = 0
    · subst hn; simp [natDigitsAux, digitsVal]
    · have hd : n / 10 < n := Nat.div_lt_self (Nat.pos_of_ne_zero hn) (by norm_num)
      simp only [natDigitsAux, if_neg hn]
      rw [digitsVal_append, ih (n / 10) (by omega), digitsVal_singleton,
        digitVal_digitChar (Nat.mod_lt _ (by norm_num))]
      simp only [List.length_singleton, pow_one]
      omega

lemma digitsVal_natDigits (n : Nat) : digitsVal (natDigits n) = n := by
  unfold natDigits
  split_ifs with h
  · subst h; decide
  · exact digitsVal_natDigitsAux n n le_rfl

lemma natDigits_mul_ten {c : Nat} (hc : 0 < c) : natDigits (c * 10) = natDigits c ++ ['0'] := by
  have h1 : c * 10 ≠ 0 := by omega
  unfold natDigits
  rw [if_neg h1, if_neg (by omega : ¬ c = 0)]
  rw [natDigitsAux_step h1 le_rfl]
  have h2 : c * 10 / 10 = c := by omega
  have h3 : c * 10 % 10 = 0 := by omega
  rw [h2, h3]
  have hdc : digitChar 0 = '0' := by decide
  rw [hdc]
  congr 1
  exact natDigitsAux_congr (c * 10) c c (by omega) le_rfl

lemma natDigits_mul_pow_ten {c : Nat} (hc : 0 < c) (k : Nat) :
    natDigits (c * 10 ^ k) = natDigits c ++ List.replicate k '0' := by
  induction k with
  | zero => simp
  | succ k ih =>
    have he : c * 10 ^ (k + 1) = c * 10 ^ k * 10 := by ring
    have hpos : 0 < c * 10 ^ k := by positivity
    rw [he, natDigits_mul_ten hpos, ih, List.append_assoc, ← List.replicate_succ']

/-! ## Lemmas about takeWhile / dropWhile over digit runs -/

lemma takeWhile_append_all {p : Char → Bool} {l : List Char} (r : List Char)
    (h : ∀ c ∈ l, p c = true) : (l ++ r).takeWhile p = l ++ r.takeWhile p := by
  induction l with
  | nil => simp
  | cons a t ih =>
    simp only [List.cons_append, List.takeWhile_cons]
    rw [h a (List.mem_cons_self a t)]
    simp only [if_true, List.cons.injEq, true_and]
    exact ih (fun c hc => h c (List.mem_cons_of_mem a hc))

lemma dropWhile_append_all {p : Char → Bool} {l : List Char} (r : List Char)
    (h : ∀ c ∈ l, p c = true) : (l ++ r).dropWhile p = r.dropWhile p := by
  induction l with
  | nil => simp
  | cons a t ih =>
    simp only [List.cons_append, List.dropWhile_cons]
    rw [h a (List.mem_cons_self a t)]
    simp only [if_true]
    exact ih (fun c hc => h c (List.mem_cons_of_mem a hc))

lemma takeWhile_all {p : Char → Bool} {l : List Char} (h : ∀ c ∈ l, p c = true) :
    l.takeWhile p = l := by
  have h1 := @takeWhile_append_all p l [] h
  simpa using h1

lemma dropWhile_all {p : Char → Bool} {l : List Char} (h : ∀ c ∈ l, p c = true) :
    l.dropWhile p = [] := by
  have h1 := @dropWhile_append_all p l [] h
  simpa using h1

lemma takeWhile_cons_neg {p : Char → Bool} {a : Char} (r : List Char) (h : p a = false) :
    (a :: r).takeWhile p = [] := by
  simp [List.takeWhile_cons, h]

lemma dropWhile_cons_neg {p : Char → Bool} {a : Char} (r : List Char) (h : p a = false) :
    (a :: r).dropWhile p = a :: r := by
  simp [List.dropWhile_cons, h]

/-! ## Character facts and the sign splitter -/

lemma digit_ne {c x : Char} (h : isDigitChar c = true) (hx : isDigitChar x = false) : c ≠ x := by
  intro he
  subst he
  rw [h] at hx
  cases hx

lemma lowerChar_digit {c : Char} (h : isDigitChar c = true) : lowerChar c = c := by
  unfold lowerChar
  rw [if_neg]
  simp only [isDigitChar, decide_eq_true_eq] at h
  omega

lemma splitSign_minus (l : List Char) : splitSign ('-' :: l) = (true, l) := by
  simp [splitSign]

lemma splitSign_plus (l : List Char) : splitSign ('+' :: l) = (false, l) := by
  simp [splitSign]

lemma splitSign_other {c : Char} (h1 : c ≠ '-') (h2 : c ≠ '+') (l : List Char) :
    splitSign (c :: l) = (false, c :: l) := by
  simp [splitSign, h1, h2]

lemma map_lower_digit_cons {d : Char} (t : List Char) (hd : isDigitChar d = true) :
    (d :: t).map lowerChar = d :: t.map lowerChar := by
  simp [lowerChar_digit hd]

lemma ne_word_of_digit_head {d : Char} (t : List Char) (hd : isDigitChar d = true)
    {w : Char} (ws : List Char) (hw : isDigitChar w = false) :
    (d :: t).map lowerChar ≠ w :: ws := by
  rw [map_lower_digit_cons t hd]
  intro h
  injection h with h1 _
  subst h1
  rw [hd] at hw
  cases hw

lemma decOfChars_digit_head (sign : Bool) (d : Char) (t : List Char)
    (hd : isDigitChar d = true) :
    decOfChars ((if sign then ['-'] else []) ++ d :: t) =
      (parseNumeric (d :: t)).map (fun p => PyDec.num sign p.1 p.2) := by
  have hsplit : splitSign ((if sign then ['-'] else []) ++ d :: t) = (sign, d :: t) := by
    cases sign
    · simp only [Bool.false_eq_true, if_false, List.nil_append]
      exact splitSign_other (digit_ne hd (by decide)) (digit_ne hd (by decide)) t
    · simp only [if_true, List.cons_append, List.nil_append]
      exact splitSign_minus (d :: t)
  have hnan : "nan".data = 'n' :: ['a', 'n'] := rfl
  have hinf : "inf".data = 'i' :: ['n', 'f'] := rfl
  have hinfinity : "infinity".data = 'i' :: ['n', 'f', 'i', 'n', 'i', 't', 'y'] := rfl
  simp only [decOfChars, hsplit]
  rw [if_neg (ne_word_of_digit_head t hd _ (by decide))]
  rw [if_neg (by
    push_neg
    exact ⟨ne_word_of_digit_head t hd _ (by decide), ne_word_of_digit_head t hd _ (by decide)⟩)]

/-! ## Parser computations on well-formed numeric strings -/

lemma parseExpTail_nil (co : Nat) (fe : Int) : parseExpTail co fe [] = some (co, fe) := rfl

lemma parseExpTail_e (co : Nat) (fe : Int) (esign : Bool) {E : List Char} (hE : E ≠ [])
    (h : ∀ c ∈ E, isDigitChar c = true) :
    parseExpTail co fe ('e' :: (if esign then '-' else '+') :: E) =
      some (co, fe + (if esign then -(digitsVal E : Int) else (digitsVal E : Int))) := by
  cases esign
  · simp only [Bool.false_eq_true, if_false]
    simp only [parseExpTail, splitSign_plus, takeWhile_all h, dropWhile_all h]
    simp [hE]
  · simp only [if_true]
    simp only [parseExpTail, splitSign_minus, takeWhile_all h, dropWhile_all h]
    simp [hE]

lemma parseNumeric_digits {l : List Char} (h1 : l ≠ [])
    (h2 : ∀ c ∈ l, isDigitChar c = true) :
    parseNumeric l = some (digitsVal l, 0) := by
  simp only [parseNumeric, takeWhile_all h2, dropWhile_all h2]
  rw [if_neg h1]
  rfl

lemma parseNumeric_point {A B : List Char} (hA : A ≠ [])
    (h2 : ∀ c ∈ A, isDigitChar c = true) (h3 : ∀ c ∈ B, isDigitChar c = true) :
    parseNumeric (A ++ '.' :: B) = some (digitsVal (A ++ B), -(B.length : Int)) := by
  have ht : (A ++ '.' :: B).takeWhile isDigitChar = A := by
    rw [takeWhile_append_all _ h2, takeWhile_cons_neg _ (by decide), List.append_nil]
  have hd : (A ++ '.' :: B).dropWhile isDigitChar = '.' :: B := by
    rw [dropWhile_append_all _ h2, dropWhile_cons_neg _ (by decide)]
  simp only [parseNumeric, ht, hd]
  rw [takeWhile_all h3, dropWhile_all h3, if_pos trivial, if_neg (by simp [hA])]
  exact parseExpTail_nil _ _

lemma parseNumeric_sci {A B E : List Char} (esign : Bool) (hA : A ≠ [])
    (h2 : ∀ c ∈ A, isDigitChar c = true) (h3 : ∀ c ∈ B, isDigitChar c = true)
    (hE : E ≠ []) (h4 : ∀ c ∈ E, isDigitChar c = true) :
    parseNumeric (A ++ (if B = [] then [] else '.' :: B) ++
        'e' :: (if esign then '-' else '+') :: E) =
      some (digitsVal (A ++ B),
        -(B.length : Int) + (if esign then -(digitsVal E : Int) else (digitsVal E : Int))) := by
  by_cases hB : B = []
  · subst hB
    have hr : (if ([] : List Char) = [] then [] else '.' :: ([] : List Char)) = [] := by simp
    rw [hr, List.append_nil]
    have ht : (A ++ 'e' :: (if esign then '-' else '+') :: E).takeWhile isDigitChar = A := by
      rw [takeWhile_append_all _ h2, takeWhile_cons_neg _ (by decide), List.append_nil]
    have hd : (A ++ 'e' :: (if esign then '-' else '+') :: E).dropWhile isDigitChar =
        'e' :: (if esign then '-' else '+') :: E := by
      rw [dropWhile_append_all _ h2, dropWhile_cons_neg _ (by decide)]
    simp only [parseNumeric, ht, hd]
    rw [if_neg (by decide : ¬ ('e' = '.')), if_neg hA,
      parseExpTail_e (digitsVal A) 0 esign hE h4]
    simp
  · rw [if_neg hB, List.append_assoc, List.cons_append]
    have ht : (A ++ '.' :: (B ++ 'e' :: (if esign then '-' else '+') :: E)).takeWhile
        isDigitChar = A := by
      rw [takeWhile_append_all _ h2, takeWhile_cons_neg _ (by decide), List.append_nil]
    have hd : (A ++ '.' :: (B ++ 'e' :: (if esign then '-' else '+') :: E)).dropWhile
        isDigitChar = '.' :: (B ++ 'e' :: (if esign then '-' else '+') :: E) := by
      rw [dropWhile_append_all _ h2, dropWhile_cons_neg _ (by decide)]
    have ht2 : (B ++ 'e' :: (if esign then '-' else '+') :: E).takeWhile isDigitChar = B := by
      rw [takeWhile_append_all _ h3, takeWhile_cons_neg _ (by decide), List.append_nil]
    have hd2 : (B ++ 'e' :: (if esign then '-' else '+') :: E).dropWhile isDigitChar =
        'e' :: (if esign then '-' else '+') :: E := by
      rw [dropWhile_append_all _ h3, dropWhile_cons_neg _ (by decide)]
    simp only [parseNumeric, ht, hd]
    rw [ht2, hd2, if_pos trivial, if_neg (by simp [hA]),
      parseExpTail_e (digitsVal (A ++ B)) (-(B.length : Int)) esign hE h4]

/-! ## Round-trip: parsing what str(v) prints -/

lemma string_data_mk (l : List Char) : (String.mk l).data = l := rfl

lemma head_digit_of_all {l : List Char} (hne : l ≠ [])
    (hall : ∀ x ∈ l, isDigitChar x = true) :
    ∃ d t, l = d :: t ∧ isDigitChar d = true := by
  obtain ⟨d, t, h⟩ := List.exists_cons_of_ne_nil hne
  exact ⟨d, t, h, hall d (h ▸ List.mem_cons_self d t)⟩

lemma head_digit_append {T : List Char} (rest : List Char) (hne : T ≠ [])
    (hall : ∀ x ∈ T, isDigitChar x = true) :
    ∃ d t, T ++ rest = d :: t ∧ isDigitChar d = true := by
  obtain ⟨d, T', h, hd⟩ := head_digit_of_all hne hall
  exact ⟨d, T' ++ rest, by rw [h, List.cons_append], hd⟩

lemma decOfChars_body (sign : Bool) {body : List Char}
    (h : ∃ d t, body = d :: t ∧ isDigitChar d = true) :
    decOfChars ((if sign then ['-'] else []) ++ body) =
      (parseNumeric body).map (fun p => PyDec.num sign p.1 p.2) := by
  obtain ⟨d, t, hb, hd⟩ := h
  rw [hb]
  exact decOfChars_digit_head sign d t hd

lemma digitsVal_replicate_zero (k : Nat) : digitsVal (List.replicate k '0') = 0 := by
  have h := digitsVal_replicate_zero_append k []
  simpa using h

lemma decOfChars_pyIntRepr (n : Int) :
    decOfChars (pyIntRepr n).data = some (PyDec.num (decide (n < 0)) n.natAbs 0) := by
  have hsign : (if n < 0 then ['-'] else []) = (if decide (n < 0) then ['-'] else []) := by
    by_cases h : n < 0 <;> simp [h]
  have hne := natDigits_ne_nil n.natAbs
  have hall := natDigits_all_digits n.natAbs
  rw [pyIntRepr, string_data_mk, hsign, decOfChars_body (decide (n < 0)) (head_digit_of_all hne hall),
    parseNumeric_digits hne hall, digitsVal_natDigits]
  rfl

lemma numericPlain_pyIntRepr (n : Int) :
    numericPlain (pyIntRepr n) = stripNumFixed (PyDec.num (decide (n < 0)) n.natAbs 0) := by
  unfold numericPlain decOfString
  rw [decOfChars_pyIntRepr]

lemma padExp2_ne_nil (m : Nat) : padExp2 m ≠ [] := by
  simp only [padExp2]
  split_ifs
  · simp
  · exact natDigits_ne_nil m

lemma padExp2_all (m : Nat) : ∀ x ∈ padExp2 m, isDigitChar x = true := by
  simp only [padExp2]
  split_ifs
  · intro x hx
    rcases List.mem_cons.mp hx with h | h
    · subst h; decide
    · exact natDigits_all_digits m x h
  · exact natDigits_all_digits m

lemma digitsVal_padExp2 (m : Nat) : digitsVal (padExp2 m) = m := by
  simp only [padExp2]
  split_ifs
  · rw [digitsVal_zero_cons, digitsVal_natDigits]
  · exact digitsVal_natDigits m

lemma parseNumeric_fixedChars_nonneg (c : Nat) {e : Int} (he : 0 ≤ e) :
    parseNumeric (fixedChars c e) = some (c * 10 ^ e.toNat, 0) := by
  have hb : fixedChars c e = natDigits c ++ List.replicate e.toNat '0' := by
    simp only [fixedChars]
    rw [if_pos he]
  have hall : ∀ x ∈ natDigits c ++ List.replicate e.toNat '0', isDigitChar x = true := by
    intro x hx
    rcases List.mem_append.mp hx with h | h
    · exact natDigits_all_digits c x h
    · rw [List.eq_of_mem_replicate h]; decide
  have hne : natDigits c ++ List.replicate e.toNat '0' ≠ [] := by
    intro h
    exact natDigits_ne_nil c (List.append_eq_nil.mp h).1
  rw [hb, parseNumeric_digits hne hall, digitsVal_append, digitsVal_replicate_zero,
    digitsVal_natDigits, List.length_replicate]
  simp

lemma fixedChars_neg_decomp (c : Nat) {e : Int} (he : ¬ 0 ≤ e) :
    ∃ T D, fixedChars c e = T ++ '.' :: D ∧ T ≠ [] ∧ (∀ x ∈ T, isDigitChar x = true) ∧
      (∀ x ∈ D, isDigitChar x = true) ∧ digitsVal (T ++ D) = c ∧ D.length = (-e).toNat := by
  have hlenpos : 1 ≤ (natDigits c).length := List.length_pos.mpr (natDigits_ne_nil c)
  have hall' : ∀ x ∈ List.replicate ((-e).toNat + 1 - (natDigits c).length) '0' ++ natDigits c,
      isDigitChar x = true := by
    intro x hx
    rcases List.mem_append.mp hx with h | h
    · rw [List.eq_of_mem_replicate h]; decide
    · exact natDigits_all_digits c x h
  have hlen : (List.replicate ((-e).toNat + 1 - (natDigits c).length) '0' ++ natDigits c).length
      = (-e).toNat + 1 - (natDigits c).length + (natDigits c).length := by simp
  refine ⟨(List.replicate ((-e).toNat + 1 - (natDigits c).length) '0' ++ natDigits c).take
      ((List.replicate ((-e).toNat + 1 - (natDigits c).length) '0' ++ natDigits c).length -
        (-e).toNat),
    (List.replicate ((-e).toNat + 1 - (natDigits c).length) '0' ++ natDigits c).drop
      ((List.replicate ((-e).toNat + 1 - (natDigits c).length) '0' ++ natDigits c).length -
        (-e).toNat),
    ?_, ?_, ?_, ?_, ?_, ?_⟩
  · simp only [fixedChars]
    rw [if_neg he]
  · apply List.ne_nil_of_length_pos
    rw [List.length_take, hlen]
    omega
  · intro x hx; exact hall' x (List.take_subset _ _ hx)
  · intro x hx; exact hall' x (List.drop_subset _ _ hx)
  · rw [List.take_append_drop, digitsVal_replicate_zero_append, digitsVal_natDigits]
  · rw [List.length_drop, hlen]
    omega

lemma parseNumeric_fixedChars_neg (c : Nat) {e : Int} (he : ¬ 0 ≤ e) :
    parseNumeric (fixedChars c e) = some (c, e) := by
  obtain ⟨T, D, hb, hTne, hT, hD, hval, hDlen⟩ := fixedChars_neg_decomp c he
  rw [hb, parseNumeric_point hTne hT hD, hval, hDlen]
  have h1 : -((((-e).toNat) : Int)) = e := by omega
  rw [h1]

lemma fixedChars_head (c : Nat) (e : Int) :
    ∃ d t, fixedChars c e = d :: t ∧ isDigitChar d = true := by
  by_cases he : 0 ≤ e
  · have hb : fixedChars c e = natDigits c ++ List.replicate e.toNat '0' := by
      simp only [fixedChars]
      rw [if_pos he]
    rw [hb]
    exact head_digit_append _ (natDigits_ne_nil c) (natDigits_all_digits c)
  · obtain ⟨T, D, hb, hTne, hT, _, _, _⟩ := fixedChars_neg_decomp c he
    rw [hb]
    exact head_digit_append _ hTne hT

lemma sciChars_mant (c : Nat) {d : Char} {rest : List Char} (hds : natDigits c = d :: rest) :
    (if (natDigits c).length ≤ 1 then natDigits c
     else (natDigits c).take 1 ++ '.' :: (natDigits c).drop 1) =
      d :: (if rest = [] then [] else '.' :: rest) := by
  rw [hds]
  by_cases hrest : rest = []
  · subst hrest
    simp
  · have hrl : 0 < rest.length := List.length_pos.mpr hrest
    rw [if_neg (by simp only [List.length_cons]; omega), if_neg hrest]
    simp

lemma sciChars_head (c : Nat) (a : Int) :
    ∃ d t, sciChars c a = d :: t ∧ isDigitChar d = true := by
  obtain ⟨d, rest, hds⟩ := List.exists_cons_of_ne_nil (natDigits_ne_nil c)
  have hd : isDigitChar d = true := natDigits_all_digits c d (hds ▸ List.mem_cons_self d rest)
  refine ⟨d, (if rest = [] then [] else '.' :: rest) ++
    'e' :: (if a < 0 then '-' else '+') :: padExp2 a.natAbs, ?_, hd⟩
  simp only [sciChars]
  rw [sciChars_mant c hds, List.cons_append]

lemma parseNumeric_sciChars (c : Nat) (a : Int) :
    parseNumeric (sciChars c a) = some (c, -(((natDigits c).length : Int) - 1) + a) := by
  obtain ⟨d, rest, hds⟩ := List.exists_cons_of_ne_nil (natDigits_ne_nil c)
  have hd : isDigitChar d = true := natDigits_all_digits c d (hds ▸ List.mem_cons_self d rest)
  have hrestall : ∀ x ∈ rest, isDigitChar x = true :=
    fun x hx => natDigits_all_digits c x (hds ▸ List.mem_cons_of_mem d hx)
  have hA : ∀ x ∈ ([d] : List Char), isDigitChar x = true := by
    intro x hx
    rw [List.mem_singleton] at hx
    subst hx; exact hd
  have hsc : (if a < 0 then '-' else '+') = (if decide (a < 0) = true then '-' else '+') := by
    by_cases h : a < 0 <;> simp [h]
  have hmant : (d :: (if rest = [] then [] else '.' :: rest) : List Char) =
      [d] ++ (if rest = [] then [] else '.' :: rest) := by simp
  simp only [sciChars]
  rw [sciChars_mant c hds, hmant, hsc,
    parseNumeric_sci (decide (a < 0)) (by simp) hA hrestall (padExp2_ne_nil _) (padExp2_all _),
    digitsVal_padExp2]
  have h1 : digitsVal ([d] ++ rest) = c := by
    rw [List.singleton_append, ← hds, digitsVal_natDigits]
  have h2 : (if decide (a < 0) = true then -(a.natAbs : Int) else (a.natAbs : Int)) = a := by
    by_cases h : a < 0
    · rw [if_pos (decide_eq_true h)]
      omega
    · rw [if_neg (by simp only [decide_eq_true_eq]; exact h)]
      omega
  have h3 : (rest.length : Int) = ((natDigits c).length : Int) - 1 := by
    have := congrArg List.length hds
    simp only [List.length_cons] at this
    omega
  rw [h1, h2, h3]

lemma numericPlain_pyFloatRepr (sign : Bool) (c : Nat) (e : Int) :
    numericPlain (pyFloatRepr (PyFloat.finite sign c e)) =
      if -3 ≤ e + ((natDigits c).length : Int) ∧ e + ((natDigits c).length : Int) ≤ 16 ∧ 0 ≤ e
      then stripNumFixed (PyDec.num sign (c * 10 ^ e.toNat) 0)
      else stripNumFixed (PyDec.num sign c e) := by
  have hrepr : (pyFloatRepr (PyFloat.finite sign c e)).data =
      (if sign then ['-'] else []) ++
        (if -3 ≤ e + ((natDigits c).length : Int) ∧ e + ((natDigits c).length : Int) ≤ 16
         then fixedChars c e else sciChars c (e + ((natDigits c).length : Int) - 1)) := by
    simp only [pyFloatRepr, string_data_mk]
  by_cases hfix : -3 ≤ e + ((natDigits c).length : Int) ∧ e + ((natDigits c).length : Int) ≤ 16
  · by_cases he : 0 ≤ e
    · have hdec : decOfString (pyFloatRepr (PyFloat.finite sign c e)) =
          some (PyDec.num sign (c * 10 ^ e.toNat) 0) := by
        unfold decOfString
        rw [hrepr, if_pos hfix, decOfChars_body sign (fixedChars_head c e),
          parseNumeric_fixedChars_nonneg c he]
        rfl
      unfold numericPlain
      rw [hdec, if_pos ⟨hfix.1, hfix.2, he⟩]
    · have hdec : decOfString (pyFloatRepr (PyFloat.finite sign c e)) =
          some (PyDec.num sign c e) := by
        unfold decOfString
        rw [hrepr, if_pos hfix, decOfChars_body sign (fixedChars_head c e),
          parseNumeric_fixedChars_neg c he]
        rfl
      unfold numericPlain
      rw [hdec, if_neg (fun h => he h.2.2)]
  · have hdec : decOfString (pyFloatRepr (PyFloat.finite sign c e)) =
        some (PyDec.num sign c e) := by
      unfold decOfString
      rw [hrepr, if_neg hfix, decOfChars_body sign (sciChars_head c _),
        parseNumeric_sciChars c (e + ((natDigits c).length : Int) - 1)]
      have h1 : -(((natDigits c).length : Int) - 1) + (e + ((natDigits c).length : Int) - 1)
          = e := by ring
      rw [h1]
      rfl
    unfold numericPlain
    rw [hdec, if_neg (fun h => hfix ⟨h.1, h.2.1⟩)]

/-! ## No exponent character in the numeric output -/

lemma mem_of_mem_dropWhile {p : Char → Bool} {l : List Char} {x : Char}
    (h : x ∈ l.dropWhile p) : x ∈ l := by
  induction l with
  | nil => simp at h
  | cons a t ih =>
    rw [List.dropWhile_cons] at h
    by_cases hp : p a = true
    · rw [if_pos hp] at h
      exact List.mem_cons_of_mem a (ih h)
    · rw [if_neg hp] at h
      exact h

lemma mem_rstripL {l : List Char} {c x : Char} (h : x ∈ rstripL l c) : x ∈ l := by
  unfold rstripL at h
  rw [List.mem_reverse] at h
  exact List.mem_reverse.mp (mem_of_mem_dropWhile h)

lemma fixedChars_mem {c : Nat} {e : Int} {x : Char} (h : x ∈ fixedChars c e) :
    isDigitChar x = true ∨ x = '.' := by
  by_cases he : 0 ≤ e
  · have hb : fixedChars c e = natDigits c ++ List.replicate e.toNat '0' := by
      simp only [fixedChars]
      rw [if_pos he]
    rw [hb] at h
    rcases List.mem_append.mp h with h | h
    · exact Or.inl (natDigits_all_digits c x h)
    · rw [List.eq_of_mem_replicate h]
      exact Or.inl (by decide)
  · obtain ⟨T, D, hb, _, hT, hD, _, _⟩ := fixedChars_neg_decomp c he
    rw [hb] at h
    rcases List.mem_append.mp h with h | h
    · exact Or.inl (hT x h)
    · rcases List.mem_cons.mp h with h | h
      · exact Or.inr h
      · exact Or.inl (hD x h)

lemma formatF_num_mem {sign : Bool} {c : Nat} {e : Int} {x : Char}
    (h : x ∈ (formatF (PyDec.num sign c e)).data) :
    isDigitChar x = true ∨ x = '.' ∨ x = '-' := by
  simp only [formatF, string_data_mk] at h
  rcases List.mem_append.mp h with h | h
  · cases sign
    · simp at h
    · simp only [if_true, List.mem_singleton] at h
      exact Or.inr (Or.inr h)
  · rcases fixedChars_mem h with h | h
    · exact Or.inl h
    · exact Or.inr (Or.inl h)

lemma noE_char {x : Char} (h : isDigitChar x = true ∨ x = '.' ∨ x = '-') :
    (x == 'e' || x == 'E') = false := by
  have h1 : x ≠ 'e' := by
    intro he
    subst he
    rcases h with h | h | h
    · exact absurd h (by decide)
    · exact absurd h (by decide)
    · exact absurd h (by decide)
  have h2 : x ≠ 'E' := by
    intro he
    subst he
    rcases h with h | h | h
    · exact absurd h (by decide)
    · exact absurd h (by decide)
    · exact absurd h (by decide)
  simp only [Bool.or_eq_false_iff, beq_eq_false_iff_ne, ne_eq]
  exact ⟨h1, h2⟩

lemma any_eq_false_of {l : List Char} {p : Char → Bool} (h : ∀ x ∈ l, p x = false) :
    l.any p = false := by
  cases hany : l.any p
  · rfl
  · obtain ⟨x, hx, hpx⟩ := List.any_eq_true.mp hany
    rw [h x hx] at hpx
    cases hpx

lemma hasExpChar_stripNumFixed_num (sign : Bool) (c : Nat) (e : Int) :
    hasExpChar (stripNumFixed (PyDec.num sign c e)) = false := by
  simp only [stripNumFixed, hasExpChar]
  split_ifs with hdot
  · apply any_eq_false_of
    intro x hx
    simp only [rstripChar, string_data_mk] at hx
    exact noE_char (formatF_num_mem (mem_rstripL (mem_rstripL hx)))
  · apply any_eq_false_of
    intro x hx
    exact noE_char (formatF_num_mem hx)

lemma hasExpChar_stripNumFixed (d : PyDec) : hasExpChar (stripNumFixed d) = false := by
  cases d with
  | num sign c e => exact hasExpChar_stripNumFixed_num sign c e
  | nan => decide
  | inf sign => cases sign <;> decide

/-! ## Idempotence of the sanitizer -/

lemma dropWhile_head_false {p : Char → Bool} :
    ∀ {l : List Char} {a : Char} {t : List Char}, l.dropWhile p = a :: t → p a = false := by
  intro l
  induction l with
  | nil => intro a t h; simp at h
  | cons b r ih =>
    intro a t h
    rw [List.dropWhile_cons] at h
    by_cases hp : p b = true
    · rw [if_pos hp] at h
      exact ih h
    · rw [if_neg hp] at h
      injection h with h1 _
      subst h1
      exact Bool.eq_false_iff.mpr hp

lemma getLast?_dropWhile {p : Char → Bool} :
    ∀ (l : List Char), l.dropWhile p ≠ [] → (l.dropWhile p).getLast? = l.getLast? := by
  intro l
  induction l with
  | nil => intro h; simp at h
  | cons a t ih =>
    intro h
    rw [List.dropWhile_cons] at h ⊢
    by_cases hp : p a = true
    · rw [if_pos hp] at h ⊢
      have ht : t ≠ [] := by
        intro h0
        subst h0
        simp at h
      rw [ih h]
      cases t with
      | nil => exact absurd rfl ht
      | cons b t' => rw [List.getLast?_cons_cons]
    · rw [if_neg hp]

lemma dropWhile_idem {p : Char → Bool} (l : List Char) :
    (l.dropWhile p).dropWhile p = l.dropWhile p := by
  cases h : l.dropWhile p with
  | nil => simp
  | cons a t => exact dropWhile_cons_neg t (dropWhile_head_false h)

lemma dropWhile_pyStripL (p : Char → Bool) (l : List Char) :
    (pyStripL p l).dropWhile p = pyStripL p l := by
  have key : ∀ m, pyStripL p l = m → m.dropWhile p = m := by
    intro m hm
    cases m with
    | nil => simp
    | cons a t =>
      have hYne : (l.dropWhile p).reverse.dropWhile p ≠ [] := by
        intro h0
        unfold pyStripL at hm
        rw [h0] at hm
        simp at hm
      have hMne : l.dropWhile p ≠ [] := by
        intro h0
        rw [h0] at hYne
        simp at hYne
      obtain ⟨b, s, hbs⟩ := List.exists_cons_of_ne_nil hMne
      have hpb : p b = false := dropWhile_head_false hbs
      have hhead : (a :: t : List Char).head? = some b := by
        rw [← hm]
        unfold pyStripL
        rw [List.head?_reverse, getLast?_dropWhile _ hYne, List.getLast?_reverse, hbs]
        rfl
      simp only [List.head?_cons, Option.some.injEq] at hhead
      subst hhead
      exact dropWhile_cons_neg t hpb
  exact key _ rfl

lemma dropWhile_reverse_pyStripL (p : Char → Bool) (l : List Char) :
    (pyStripL p l).reverse.dropWhile p = (pyStripL p l).reverse := by
  unfold pyStripL
  rw [List.reverse_reverse]
  exact dropWhile_idem _

lemma pyStripL_idem (p : Char → Bool) (l : List Char) :
    pyStripL p (pyStripL p l) = pyStripL p l := by
  show (((pyStripL p l).dropWhile p).reverse.dropWhile p).reverse = pyStripL p l
  rw [dropWhile_pyStripL, dropWhile_reverse_pyStripL, List.reverse_reverse]

lemma map_eq_self_of {l : List Char} {f : Char → Char} (h : ∀ x ∈ l, f x = x) :
    l.map f = l := by
  induction l with
  | nil => rfl
  | cons a t ih =>
    rw [List.map_cons, h a (List.mem_cons_self a t),
      ih (fun x hx => h x (List.mem_cons_of_mem a hx))]

lemma filter_eq_self_of {l : List Char} {p : Char → Bool} (h : ∀ x ∈ l, p x = true) :
    l.filter p = l := by
  induction l with
  | nil => rfl
  | cons a t ih =>
    rw [List.filter_cons, if_pos (h a (List.mem_cons_self a t)),
      ih (fun x hx => h x (List.mem_cons_of_mem a hx))]

lemma mem_pyStripL {p : Char → Bool} {l : List Char} {x : Char}
    (h : x ∈ pyStripL p l) : x ∈ l := by
  unfold pyStripL at h
  rw [List.mem_reverse] at h
  have h1 := mem_of_mem_dropWhile h
  rw [List.mem_reverse] at h1
  exact mem_of_mem_dropWhile h1

lemma trim_core_idem (l : List Char) :
    pyStripL pyIsSpace
      (((pyStripL pyIsSpace ((l.map (fun c => if c = NBSP then ' ' else c)).filter
          (fun c => !isZeroWidth c))).map (fun c => if c = NBSP then ' ' else c)).filter
        (fun c => !isZeroWidth c)) =
      pyStripL pyIsSpace ((l.map (fun c => if c = NBSP then ' ' else c)).filter
        (fun c => !isZeroWidth c)) := by
  set M := (l.map (fun c => if c = NBSP then ' ' else c)).filter (fun c => !isZeroWidth c)
    with hM
  have hmap : ∀ x ∈ pyStripL pyIsSpace M, (if x = NBSP then ' ' else x) = x := by
    intro x hx
    have hxM := mem_pyStripL hx
    rw [hM] at hxM
    obtain ⟨y, _, hy⟩ := List.mem_map.mp (List.mem_of_mem_filter hxM)
    have hxn : x ≠ NBSP := by
      rw [← hy]
      by_cases hyn : y = NBSP
      · rw [if_pos hyn]; decide
      · rw [if_neg hyn]; exact hyn
    rw [if_neg hxn]
  have hfil : ∀ x ∈ pyStripL pyIsSpace M, (!isZeroWidth x) = true := by
    intro x hx
    have hxM := mem_pyStripL hx
    rw [hM] at hxM
    exact (List.mem_filter.mp hxM).2
  rw [map_eq_self_of hmap, filter_eq_self_of hfil, pyStripL_idem]

lemma trim_text_eq (s : String) (hs : ¬ s = "") :
    trim_text s = String.mk (pyStripL pyIsSpace
      ((s.data.map (fun c => if c = NBSP then ' ' else c)).filter
        (fun c => !isZeroWidth c))) := by
  unfold trim_text
  rw [if_neg hs]

lemma trim_text_idem (s : String) : trim_text (trim_text s) = trim_text s := by
  by_cases hs : s = ""
  · subst hs
    have h : trim_text "" = "" := by simp [trim_text]
    rw [h, h]
  · by_cases ht : trim_text s = ""
    · rw [ht]
      simp [trim_text]
    · rw [trim_text_eq (trim_text s) ht, trim_text_eq s hs, string_data_mk]
      exact congrArg String.mk (trim_core_idem s.data)

/-! ## The claims -/

/-- C1: for every integer or floating-point value v, normalize(v, false)
converts v via the shortest round-tripping decimal string reinterpreted
as an exact base-10 decimal, rendered fixed-point with trailing
fractional zeros stripped and a trailing decimal point removed when the
fraction becomes empty; in particular normalize(3.0, false) = "3",
normalize(3.14, false) = "3.14" and
normalize(579000000000000000, false) = "579000000000000000".
The float statement carries the well-formedness fact of shortest
round-trip representations that a zero coefficient only occurs with a
nonpositive exponent (0.0 prints as "0.0"). -/
theorem numeric_exact_decimal_rendering :
    (∀ (n : Int) (b : Bool),
        to_plain_string ⟨Value.int n, b⟩ = normalizeNum_spec (decide (n < 0)) n.natAbs 0)
    ∧ (∀ (sign : Bool) (c : Nat) (e : Int) (b : Bool), (c = 0 → e ≤ 0) →
        to_plain_string ⟨Value.float (PyFloat.finite sign c e), b⟩ = normalizeNum_spec sign c e)
    ∧ to_plain_string ⟨Value.float (PyFloat.finite false 30 (-1)), false⟩ = "3"
    ∧ to_plain_string ⟨Value.float (PyFloat.finite false 314 (-2)), false⟩ = "3.14"
    ∧ to_plain_string ⟨Value.int 579000000000000000, false⟩ = "579000000000000000" := by
  refine ⟨?_, ?_, by decide, by decide, by decide⟩
  · intro n b
    show numericPlain (pyIntRepr n) = _
    rw [numericPlain_pyIntRepr]
    rfl
  · intro sign c e b hwf
    show numericPlain (pyFloatRepr (PyFloat.finite sign c e)) = _
    rw [numericPlain_pyFloatRepr]
    split_ifs with hcond
    · by_cases hc : c = 0
      · have he0 : e = 0 := le_antisymm (hwf hc) hcond.2.2
        subst hc
        subst he0
        norm_num [normalizeNum_spec]
      · have hcpos : 0 < c := Nat.pos_of_ne_zero hc
        have hfx : fixedChars (c * 10 ^ e.toNat) 0 = fixedChars c e := by
          have h1 : fixedChars (c * 10 ^ e.toNat) 0 =
              natDigits (c * 10 ^ e.toNat) ++ List.replicate (0 : Int).toNat '0' := by
            simp only [fixedChars]
            rw [if_pos le_rfl]
          have h2 : fixedChars c e = natDigits c ++ List.replicate e.toNat '0' := by
            simp only [fixedChars]
            rw [if_pos hcond.2.2]
          rw [h1, h2, natDigits_mul_pow_ten hcpos]
          simp
        have hfmt : formatF (PyDec.num sign (c * 10 ^ e.toNat) 0) =
            formatF (PyDec.num sign c e) := by
          simp only [formatF]
          rw [hfx]
        unfold normalizeNum_spec stripNumFixed
        rw [hfmt]
    · rfl

/-- Witness for C1 at the concrete input 3.14, whose shortest
round-tripping decimal is 314 with exponent -2. -/
theorem numeric_exact_decimal_rendering_witness :
    ((314 : Nat) = 0 → (-2 : Int) ≤ 0) ∧
      to_plain_string ⟨Value.float (PyFloat.finite false 314 (-2)), false⟩ =
        normalizeNum_spec false 314 (-2) :=
  ⟨by decide, numeric_exact_decimal_rendering.2.1 false 314 (-2) false (by decide)⟩

/-- C2: for every integer and every floating-point value (the NaN and
infinity forms included), the string normalize returns contains no "e"
or "E" exponent-notation character, whatever the date flag is. -/
theorem no_exponent_notation :
    (∀ (n : Int) (b : Bool), hasExpChar (to_plain_string ⟨Value.int n, b⟩) = false)
    ∧ (∀ (f : PyFloat) (b : Bool), hasExpChar (to_plain_string ⟨Value.float f, b⟩) = false) := by
  constructor
  · intro n b
    show hasExpChar (numericPlain (pyIntRepr n)) = false
    rw [numericPlain_pyIntRepr]
    exact hasExpChar_stripNumFixed _
  · intro f b
    cases f with
    | finite sign c e =>
      show hasExpChar (numericPlain (pyFloatRepr (PyFloat.finite sign c e))) = false
      rw [numericPlain_pyFloatRepr]
      split_ifs <;> exact hasExpChar_stripNumFixed _
    | nan =>
      show hasExpChar (numericPlain (pyFloatRepr PyFloat.nan)) = false
      decide
    | inf s2 =>
      cases s2
      · show hasExpChar (numericPlain (pyFloatRepr (PyFloat.inf false))) = false
        decide
      · show hasExpChar (numericPlain (pyFloatRepr (PyFloat.inf true))) = false
        decide

/-- C3: a date-time cell whose is_date flag is set renders through the
DD/MM/YYYY, HH:MM:SS pattern (24-hour, zero-padded), a date-only cell
through DD/MM/YYYY; the date branch precedes the numeric branch, so the
flagged date-time 1 June 2025, 00:00:19 renders as
"01/06/2025, 00:00:19" and not as its numeric serial 45809. -/
theorem date_formatting :
    (∀ t : PyDateTime, to_plain_string ⟨Value.datetime t, true⟩ = dateTimeFormat_spec t)
    ∧ (∀ d : PyDate, to_plain_string ⟨Value.date d, true⟩ = dateFormat_spec d)
    ∧ to_plain_string ⟨Value.datetime ⟨2025, 6, 1, 0, 0, 19⟩, true⟩ = "01/06/2025, 00:00:19"
    ∧ to_plain_string ⟨Value.datetime ⟨2025, 6, 1, 0, 0, 19⟩, true⟩ ≠
        to_plain_string ⟨Value.int 45809, true⟩ := by
  refine ⟨?_, ?_, by decide, by decide⟩
  · intro t
    show pyStrftime DATE_FORMAT_DATETIME t.year t.month t.day t.hour t.minute t.second = _
    unfold pyStrftime DATE_FORMAT_DATETIME dateTimeFormat_spec
    congr 1
    simp [strftimeChars, fmtDirective]
  · intro d
    show pyStrftime DATE_FORMAT_DATE d.year d.month d.day 0 0 0 = _
    unfold pyStrftime DATE_FORMAT_DATE dateFormat_spec
    congr 1
    simp [strftimeChars, fmtDirective]

/-- C4: a boolean renders as the literal "TRUE" or "FALSE" whatever the
date flag is, and is never rendered as the numeric rendering of the
corresponding 0 or 1. -/
theorem boolean_rendering :
    (∀ b flag : Bool, to_plain_string ⟨Value.bool b, flag⟩ = if b then "TRUE" else "FALSE")
    ∧ to_plain_string ⟨Value.bool true, false⟩ = "TRUE"
    ∧ to_plain_string ⟨Value.bool false, false⟩ = "FALSE"
    ∧ to_plain_string ⟨Value.bool true, false⟩ ≠ to_plain_string ⟨Value.int 1, false⟩
    ∧ to_plain_string ⟨Value.bool false, false⟩ ≠ to_plain_string ⟨Value.int 0, false⟩ := by
  refine ⟨?_, by decide, by decide, by decide, by decide⟩
  intro b flag
  rfl

/-- C5: sanitize equals the spec's three-step pipeline (NBSP to space,
zero-width deletion, strip), and on the concrete inputs
" NBSP hello ZWSP NBSP" and "NBSP NBSP" returns "hello" and "". -/
theorem sanitize_steps :
    (∀ s : String, trim_text s = sanitize_spec s)
    ∧ trim_text " \u00A0hello\u200B \u00A0" = "hello"
    ∧ trim_text "\u00A0\u00A0" = "" := by
  refine ⟨?_, by decide, by decide⟩
  intro s
  by_cases hs : s = ""
  · subst hs
    decide
  · rw [trim_text_eq s hs]
    rfl

/-- C6: the composed pipeline is idempotent under a second sanitize
pass: for every cell, sanitize(normalize(x)) equals
sanitize(sanitize(normalize(x))). -/
theorem sanitize_normalize_idempotent (cell : Cell) :
    trim_text (to_plain_string cell) = trim_text (trim_text (to_plain_string cell)) :=
  (trim_text_idem (to_plain_string cell)).symm

/-- C7: an absent value renders as the empty string whatever the date
flag is; the absence check is the first branch of the dispatch. -/
theorem absent_empty (b : Bool) : to_plain_string ⟨Value.none, b⟩ = "" := rfl

/-- C8: normalize is total, every input yielding a string, and the
numeric branch falls back to the incoming textual form whenever the
Decimal conversion fails. -/
theorem normalize_total_and_fallback :
    (∀ cell : Cell, ∃ out : String, to_plain_string cell = out)
    ∧ (∀ s : String, decOfString s = none → numericPlain s = s) := by
  constructor
  · intro cell
    exact ⟨to_plain_string cell, rfl⟩
  · intro s h
    unfold numericPlain
    rw [h]

/-- Witness for C8 at a concrete string the Decimal grammar rejects. -/
theorem normalize_total_and_fallback_witness :
    decOfString "unparseable" = none ∧ numericPlain "unparseable" = "unparseable" :=
  ⟨by decide, normalize_total_and_fallback.2 "unparseable" (by decide)⟩

/-- C9: a text value is returned completely unchanged by normalize, the
sanitization belonging to the later trim_text step. -/
theorem text_unchanged (s : String) (b : Bool) : to_plain_string ⟨Value.str s, b⟩ = s := rfl

/-- C10: a date or date-time whose is_date flag is false falls through
to the default textual conversion str(v): the ISO form, not the empty
string, not the DD/MM/YYYY rendering, and not a numeric serial. -/
theorem unflagged_date_default_str :
    (∀ d : PyDate, to_plain_string ⟨Value.date d, false⟩ = isoDate d)
    ∧ (∀ t : PyDateTime, to_plain_string ⟨Value.datetime t, false⟩ = isoDateTime t)
    ∧ to_plain_string ⟨Value.datetime ⟨2025, 6, 1, 0, 0, 19⟩, false⟩ = "2025-06-01 00:00:19"
    ∧ to_plain_string ⟨Value.datetime ⟨2025, 6, 1, 0, 0, 19⟩, false⟩ ≠ ""
    ∧ to_plain_string ⟨Value.datetime ⟨2025, 6, 1, 0, 0, 19⟩, false⟩ ≠ "01/06/2025, 00:00:19"
    ∧ to_plain_string ⟨Value.datetime ⟨2025, 6, 1, 0, 0, 19⟩, false⟩ ≠
        to_plain_string ⟨Value.int 45809, false⟩ := by
  refine ⟨fun d => rfl, fun t => rfl, by decide, by decide, by decide, by decide⟩
